import Mathlib

/-!
Shallow embedding of the `Supervisor` coordination core of a Tendermint
light client (files `light-client/src/supervisor.rs` and
`light-client/src/evidence.rs`), together with models of the collaborators
the core consumes (`PeerList`, `LightStore`, crossbeam channels), which are
part of the repository but outside the embedded files; those models follow
the specification's description and are marked `Modelled from the spec`.

Collaborator behaviour (`LightClient`, `ForkDetector`, `EvidenceReporter`)
is represented by function-valued fields, so every theorem quantifies over
all collaborator behaviours compatible with the interfaces.
-/

namespace TmLight

/-- Monotonic non-negative block index. -/
abbrev Height := Nat

/-- Opaque unique identifier of a full node. -/
abbrev PeerId := Nat

/-- Opaque signed header payload (contents irrelevant to the core). -/
abbrev SignedHeader := Nat

/-- Opaque content hash returned by the evidence reporter. -/
abbrev EvHash := Nat

/-- Opaque transport error of the evidence reporter. -/
abbrev IoErr := Nat

/-- Opaque verification error returned by the `LightClient` collaborator. -/
abbrev VerifError := Nat

/-- Status tagging blocks inside a light store. -/
inductive Status
  | unverified
  | verified
  | trusted
  | failed
deriving DecidableEq, Repr

/-- A block as seen from one peer: height, signed header, originating peer. -/
structure LightBlock where
  height : Height
  signed_header : SignedHeader
  provider : PeerId
deriving DecidableEq, Repr

/-- Modelled from the spec: the `LightStore` owned by each `State`
(`light-client/src/store.rs` is not among the embedded files): a mapping
`Height → LightBlock × Status`, as an association list keyed by height. -/
abbrev LightStore := List (LightBlock × Status)

/-- Modelled from the spec: `LightStore.update` upserts the block into the
store with the given status, keyed by its height. -/
def LightStore.update (s : LightStore) (lb : LightBlock) (st : Status) : LightStore :=
  (lb, st) :: s.filter (fun e => e.1.height != lb.height)

/-- Modelled from the spec: the auxiliary index returning the highest block
at a given status. -/
def LightStore.highest (s : LightStore) (st : Status) : Option LightBlock :=
  s.foldl
    (fun acc e =>
      if e.2 = st then
        match acc with
        | none => some e.1
        | some b => if b.height < e.1.height then some e.1 else some b
      else acc)
    none

/-- Mutable per-peer context; exclusively owns its `LightStore`. -/
structure State where
  light_store : LightStore
deriving DecidableEq, Repr

/-- The `LightClient` collaborator: verification routines taking `&mut State`,
modelled as functions returning the verdict together with the updated state. -/
structure LightClient where
  verify_to_highest : State → Except VerifError LightBlock × State
  verify_to_target : Height → State → Except VerifError LightBlock × State

/-- An `Instance` packages a `LightClient` together with its `State`
(`supervisor.rs`, `struct Instance`). -/
structure Instance where
  light_client : LightClient
  state : State

/-- Source `Instance::latest_trusted`: highest block in the store tagged `Trusted`. -/
def Instance.latest_trusted (i : Instance) : Option LightBlock :=
  i.state.light_store.highest Status.trusted

/-- Source `Instance::trust_block`: upsert the block with status `Trusted`. -/
def Instance.trust_block (i : Instance) (lb : LightBlock) : Instance :=
  { i with state := { light_store := i.state.light_store.update lb Status.trusted } }

/-- Error kinds surfaced by the core (`light-client/src/errors.rs` is not
among the embedded files; the constructors are the ones `supervisor.rs`
constructs or propagates). -/
inductive ErrorKind
  | noPrimary
  | noWitnessLeft
  | noWitnesses
  | noTrustedState (status : Status)
  | forkDetected (peers : List PeerId)
  | io (e : IoErr)
deriving DecidableEq, Repr

/-- Modelled from the spec: `PeerList` (`light-client/src/peer_list.rs` is
not among the embedded files): an optional primary, witness and faulty sets,
and a `PeerId → Instance` mapping as an association list. -/
structure PeerList where
  primary : Option PeerId
  witnesses : List PeerId
  faulty : List PeerId
  instances : List (PeerId × Instance)

/-- Association-list lookup used by the `PeerList` model. -/
def instancesFind (l : List (PeerId × Instance)) (p : PeerId) : Option Instance :=
  (l.find? (fun e => e.1 == p)).map (·.2)

/-- Association-list pointwise replacement used by the `PeerList` model. -/
def instancesSet (l : List (PeerId × Instance)) (p : PeerId) (i : Instance) :
    List (PeerId × Instance) :=
  l.map (fun e => if e.1 == p then (p, i) else e)

/-- Modelled from the spec: look up the instance of a given peer. -/
def PeerList.instanceOf (pl : PeerList) (p : PeerId) : Option Instance :=
  instancesFind pl.instances p

/-- Modelled from the spec: `PeerList::primary()` — the primary instance,
together with its id (the id is needed for state passing in the embedding). -/
def PeerList.primaryWithId (pl : PeerList) : Option (PeerId × Instance) :=
  pl.primary.bind fun p => (pl.instanceOf p).map fun i => (p, i)

/-- Replace the instance stored for peer `p` (models mutation through
`primary_mut()`). -/
def PeerList.setInstance (pl : PeerList) (p : PeerId) (i : Instance) : PeerList :=
  { pl with instances := instancesSet pl.instances p i }

/-- Modelled from the spec: `PeerList::witnesses()` — the witness instances. -/
def PeerList.witnessInstances (pl : PeerList) : List Instance :=
  pl.witnesses.filterMap pl.instanceOf

/-- Modelled from the spec: `PeerList::swap_primary()` — if no witnesses
remain, fail with `NoWitnessLeft`; otherwise demote the current primary to
faulty and promote a witness (deterministic choice: the first). -/
def PeerList.swap_primary (pl : PeerList) : Except ErrorKind PeerList :=
  match pl.witnesses with
  | [] => .error .noWitnessLeft
  | w :: ws =>
      .ok { pl with
              primary := some w
              witnesses := ws
              faulty :=
                match pl.primary with
                | some p => p :: pl.faulty
                | none => pl.faulty }

/-- Modelled from the spec: `PeerList::mark_witness_as_faulty` — remove the
peer from the witness set and insert it into the faulty set; no-op if it is
not currently a witness. -/
def PeerList.mark_witness_as_faulty (pl : PeerList) (p : PeerId) : PeerList :=
  if p ∈ pl.witnesses then
    { pl with
        witnesses := pl.witnesses.filter (fun w => w != p)
        faulty := p :: pl.faulty }
  else pl

/-- The `Fork` variant as consumed by `process_forks` (`fork_detector.rs` interface). -/
inductive Fork
  | forked (primary : LightBlock) (witness : LightBlock)
  | timeout (peer : PeerId) (error : Nat)
  | faulty (block : LightBlock) (error : Nat)
deriving DecidableEq, Repr

/-- Verdict of the fork detector. -/
inductive ForkDetection
  | detected (forks : List Fork)
  | notDetected
deriving DecidableEq, Repr

/-- Evidence of two conflicting signed headers
(`ConflictingHeadersEvidence::new` wraps them verbatim). -/
structure ConflictingHeadersEvidence where
  h1 : SignedHeader
  h2 : SignedHeader
deriving DecidableEq, Repr

/-- The `Evidence` payload submitted to the reporter. -/
inductive Evidence
  | conflictingHeaders (ev : ConflictingHeadersEvidence)
deriving DecidableEq, Repr

/-- The `Supervisor`: peer list plus injected collaborators. The inbound
channel pair is modelled separately (see `Supervisor.run`). -/
structure Supervisor where
  peers : PeerList
  fork_detector : LightBlock → LightBlock → List Instance → Except ErrorKind ForkDetection
  evidence_reporter : Evidence → PeerId → Except IoErr EvHash

/-- Result of a Rust computation that may panic (`unwrap` on `Err`, or a
violated `contracts::pre` assert, which `#[pre(...)]` compiles to a runtime
`assert!` executed before the function body). -/
inductive PanicOr (α : Type)
  | panicked
  | value (a : α)

/-- Source `Supervisor::latest_trusted`, including its
`#[pre(self.peers.primary().is_some())]` contract: with no primary the
runtime assert panics before the body, so the `ok_or_else(NoPrimary)` path
of the body is never reached on that input. -/
def Supervisor.latest_trusted (sup : Supervisor) :
    PanicOr (Except ErrorKind (Option LightBlock)) :=
  if (sup.peers.primaryWithId).isSome then
    .value
      (match sup.peers.primaryWithId with
        | none => .error .noPrimary
        | some (_, primary) => .ok primary.latest_trusted)
  else .panicked

/-- Source `Supervisor::report_evidence`: build `ConflictingHeadersEvidence` from
the two signed headers and submit it; a reporter failure surfaces as `Io`. -/
def Supervisor.report_evidence (sup : Supervisor) (provider : PeerId)
    (primary witness : LightBlock) : Except ErrorKind Unit :=
  match sup.evidence_reporter
      (Evidence.conflictingHeaders ⟨primary.signed_header, witness.signed_header⟩)
      provider with
  | .ok _ => .ok ()
  | .error e => .error (.io e)

/-- Source `Supervisor::process_forks`: report evidence for each `Forked` entry and
collect its provider; mark `Timeout`/`Faulty` peers as faulty. -/
def Supervisor.process_forks : Supervisor → List Fork →
    Except ErrorKind (List PeerId × Supervisor)
  | sup, [] => .ok ([], sup)
  | sup, Fork.forked primary witness :: rest =>
      match sup.report_evidence witness.provider primary witness with
      | .error e => .error e
      | .ok () =>
          match sup.process_forks rest with
          | .error e => .error e
          | .ok (forked, sup') => .ok (witness.provider :: forked, sup')
  | sup, Fork.timeout provider _ :: rest =>
      Supervisor.process_forks
        { sup with peers := sup.peers.mark_witness_as_faulty provider } rest
  | sup, Fork.faulty block _ :: rest =>
      Supervisor.process_forks
        { sup with peers := sup.peers.mark_witness_as_faulty block.provider } rest

/-- Source `Supervisor::detect_forks`: bail with `NoWitnesses` on an empty witness
set, otherwise consult the fork detector. -/
def Supervisor.detect_forks (sup : Supervisor) (light_block trusted_state : LightBlock) :
    Except ErrorKind ForkDetection :=
  if sup.peers.witnessInstances.isEmpty then .error .noWitnesses
  else sup.fork_detector light_block trusted_state sup.peers.witnessInstances

/-- Dispatch of the verification verdict inside `Supervisor::verify`
(`verify_to_highest` vs `verify_to_target` on the primary's light client). -/
def Instance.runVerification (primary : Instance) (height : Option Height) :
    Except VerifError LightBlock × State :=
  match height with
  | none => primary.light_client.verify_to_highest primary.state
  | some h => primary.light_client.verify_to_target h primary.state

/-- Outcome of one iteration of the `while let Some(primary)` loop body. -/
inductive StepOutcome
  | done (result : Except ErrorKind LightBlock) (sup : Supervisor)
  | cont (sup : Supervisor)

/-- One iteration of `Supervisor::verify`: `done` models `return`/`bail!`,
`cont` models `continue`; a missing primary models falling out of the loop
into `bail!(ErrorKind::NoWitnessLeft)`. -/
def Supervisor.verifyStep (sup : Supervisor) (height : Option Height) : StepOutcome :=
  match sup.peers.primaryWithId with
  | none => .done (.error .noWitnessLeft) sup
  | some (pid, primary) =>
      let vr := primary.runVerification height
      let primary' : Instance := { primary with state := vr.2 }
      let sup1 : Supervisor := { sup with peers := sup.peers.setInstance pid primary' }
      match vr.1 with
      | .error _err =>
          match sup1.peers.swap_primary with
          | .error e => .done (.error e) sup1
          | .ok peers' => .cont { sup1 with peers := peers' }
      | .ok light_block =>
          match primary'.latest_trusted with
          | none => .done (.error (.noTrustedState Status.trusted)) sup1
          | some trusted_state =>
              match sup1.detect_forks light_block trusted_state with
              | .error e => .done (.error e) sup1
              | .ok (ForkDetection.detected forks) =>
                  match sup1.process_forks forks with
                  | .error e => .done (.error e) sup1
                  | .ok (forked, sup2) =>
                      if forked.isEmpty then .cont sup2
                      else .done (.error (.forkDetected forked)) sup2
              | .ok ForkDetection.notDetected =>
                  match sup1.peers.primaryWithId with
                  | some (pid2, primary2) =>
                      .done (.ok light_block)
                        { sup1 with
                            peers := sup1.peers.setInstance pid2
                              (primary2.trust_block light_block) }
                  | none => .done (.ok light_block) sup1

/-- The supervisor state a `StepOutcome` carries. -/
def StepOutcome.sup : StepOutcome → Supervisor
  | .done _ s => s
  | .cont s => s

/-- Result of running the (potentially non-terminating) verify loop with
fuel: `out` carries the Rust function's result and the final state. -/
inductive VerifyOutcome
  | out (result : Except ErrorKind LightBlock) (sup : Supervisor)
  | outOfFuel (sup : Supervisor)

/-- The Rust `Result` carried by a `VerifyOutcome`, if the loop finished. -/
def VerifyOutcome.result : VerifyOutcome → Option (Except ErrorKind LightBlock)
  | .out r _ => some r
  | .outOfFuel _ => none

/-- The supervisor state a `VerifyOutcome` ends in. -/
def VerifyOutcome.endState : VerifyOutcome → Supervisor
  | .out _ s => s
  | .outOfFuel s => s

/-- Source `Supervisor::verify`: iterate `verifyStep` until it returns, bounded by
fuel (the loop need not terminate, e.g. a detector forever answering
`Detected([])`). -/
def Supervisor.verifyLoop : Nat → Supervisor → Option Height → VerifyOutcome
  | 0, sup, _ => .outOfFuel sup
  | fuel + 1, sup, height =>
      match sup.verifyStep height with
      | .done r sup' => .out r sup'
      | .cont sup' => Supervisor.verifyLoop fuel sup' height

/-- Source `Supervisor::verify`, including its
`#[pre(self.peers.primary().is_some())]` contract: the runtime assert panics
on a missing primary before the `while let` loop runs; the loop's
`bail!(ErrorKind::NoWitnessLeft)` fallthrough is thus unreachable from a
no-primary entry. -/
def Supervisor.verify (fuel : Nat) (sup : Supervisor) (height : Option Height) :
    PanicOr VerifyOutcome :=
  if (sup.peers.primaryWithId).isSome then .value (Supervisor.verifyLoop fuel sup height)
  else .panicked

/-- Source `Supervisor::verify_to_highest`, including its `#[pre]` contract
(the same predicate is asserted again by `verify`). -/
def Supervisor.verify_to_highest (fuel : Nat) (sup : Supervisor) : PanicOr VerifyOutcome :=
  if (sup.peers.primaryWithId).isSome then Supervisor.verify fuel sup none
  else .panicked

/-- Source `Supervisor::verify_to_target`, including its `#[pre]` contract
(the same predicate is asserted again by `verify`). -/
def Supervisor.verify_to_target (fuel : Nat) (sup : Supervisor) (h : Height) :
    PanicOr VerifyOutcome :=
  if (sup.peers.primaryWithId).isSome then Supervisor.verify fuel sup (some h)
  else .panicked

/-- Production evidence reporter (`evidence.rs`): a map from peer ids to
network addresses (addresses kept opaque). -/
structure ProdEvidenceReporter where
  peer_map : List (PeerId × Nat)

/-- Source `ProdEvidenceReporter::rpc_client_for`, i.e. `self.peer_map.get(&peer)`; the
source `.unwrap()`s the lookup, so `none` is the panic branch. -/
def ProdEvidenceReporter.rpc_client_for (r : ProdEvidenceReporter) (peer : PeerId) :
    Option Nat :=
  (r.peer_map.find? (fun e => e.1 == peer)).map (·.2)

/-- Precondition `#[pre(self.peer_map.contains_key(&peer))]` of
`ProdEvidenceReporter::report`. -/
def ProdEvidenceReporter.contains_key (r : ProdEvidenceReporter) (peer : PeerId) : Bool :=
  (r.peer_map.find? (fun e => e.1 == peer)).isSome

/-!
Channel and event-loop model. Modelled from the spec: crossbeam channels
(§4.6–§4.7, §5) — a send fails exactly when every receiver has been
dropped; a receive fails exactly when the channel is empty and every sender
has been dropped, and otherwise blocks until a message arrives. Rust's
`.unwrap()` on a failed channel operation panics the calling thread.
-/

/-- State of the far end of a channel, as seen by one endpoint. -/
inductive ChannelState
  | connected
  | disconnected
deriving DecidableEq, Repr

/-- Sending on a channel: fails iff every receiver was dropped. -/
def channelSend (st : ChannelState) : Except Unit Unit :=
  match st with
  | .connected => .ok ()
  | .disconnected => .error ()

/-- Source `SupervisorHandle::verify` / `latest_trusted` / `terminate`: send the
request on the inbound channel and `unwrap`, then blocking-receive on the
reply channel and `unwrap`. `inbound` is the state of the supervisor's
receiver; `replyOf` is the reply the supervisor sends back, `none` when the
supervisor never replies (its end of the reply channel was dropped). -/
def SupervisorHandle.call {α : Type} (inbound : ChannelState) (replyOf : Option α) :
    PanicOr α :=
  match channelSend inbound with
  | .error _ => .panicked
  | .ok () =>
      match replyOf with
      | none => .panicked
      | some a => .value a

/-- Inbound events (`enum HandleInput`); each carries the state of its
reply channel at the time the supervisor sends on it. -/
inductive HandleInput
  | terminate (reply : ChannelState)
  | verifyToHighest (reply : ChannelState)
  | verifyToTarget (height : Height) (reply : ChannelState)
  | latestTrusted (reply : ChannelState)
deriving DecidableEq, Repr

/-- Outcome of one blocking `recv` on the inbound channel. -/
inductive RecvOutcome
  | got (event : HandleInput) (rest : List HandleInput)
  | blocked
  | disconnected
deriving DecidableEq, Repr

/-- Modelled from the spec: crossbeam `recv` on a queue of pending events,
given the number of live senders: deliver the head if any; on an empty
queue, fail iff no sender is live, otherwise block. -/
def channelRecv (queue : List HandleInput) (senders : Nat) : RecvOutcome :=
  match queue with
  | e :: rest => .got e rest
  | [] => if senders = 0 then .disconnected else .blocked

/-- Result of running the supervisor event loop on a queue of events. -/
inductive RunOutcome
  | terminated (sup : Supervisor)
  | blockedForever
  | panicked
  | outOfFuel

/-- Source `Supervisor::run`: dequeue events and dispatch; `sender.send(..).unwrap()`
panics when the reply channel is closed, and `receiver.recv().unwrap()`
panics when the inbound channel is disconnected. `Supervisor::new` stores a
clone of the inbound sender in the supervisor itself, so the sender count
seen by `recv` is `externalSenders + 1` while the loop runs. `vf` is the
fuel given to the embedded verify loop. -/
def Supervisor.run (vf : Nat) :
    Nat → Supervisor → List HandleInput → Nat → RunOutcome
  | 0, _, _, _ => .outOfFuel
  | fuel + 1, sup, queue, externalSenders =>
      match channelRecv queue (externalSenders + 1) with
      | .disconnected => .panicked
      | .blocked => .blockedForever
      | .got event rest =>
          match event with
          | .terminate reply =>
              match channelSend reply with
              | .error _ => .panicked
              | .ok () => .terminated sup
          | .latestTrusted reply =>
              match sup.latest_trusted with
              | .panicked => .panicked
              | .value _outcome =>
                  match channelSend reply with
                  | .error _ => .panicked
                  | .ok () => Supervisor.run vf fuel sup rest externalSenders
          | .verifyToHighest reply =>
              match sup.verify_to_highest vf with
              | .panicked => .panicked
              | .value (VerifyOutcome.outOfFuel _) => .outOfFuel
              | .value (VerifyOutcome.out _r sup') =>
                  match channelSend reply with
                  | .error _ => .panicked
                  | .ok () => Supervisor.run vf fuel sup' rest externalSenders
          | .verifyToTarget height reply =>
              match sup.verify_to_target vf height with
              | .panicked => .panicked
              | .value (VerifyOutcome.outOfFuel _) => .outOfFuel
              | .value (VerifyOutcome.out _r sup') =>
                  match channelSend reply with
                  | .error _ => .panicked
                  | .ok () => Supervisor.run vf fuel sup' rest externalSenders

/-!
Concrete fixtures used to witness the theorems below.
-/

/-- A light client that always verifies to the fixed block `b`. -/
def lcStatic (b : LightBlock) : LightClient :=
  { verify_to_highest := fun s => (.ok b, s)
    verify_to_target := fun _ s => (.ok b, s) }

/-- A light client whose verification always fails. -/
def lcFailing : LightClient :=
  { verify_to_highest := fun s => (.error 0, s)
    verify_to_target := fun _ s => (.error 0, s) }

/-- A sample block at height 50 from peer 0. -/
def blkA : LightBlock := ⟨50, 500, 0⟩

/-- A sample block at height 100 from peer 0. -/
def blkB : LightBlock := ⟨100, 1000, 0⟩

/-- A sample block at height 100 from witness peer 1, conflicting with `blkB`. -/
def blkW : LightBlock := ⟨100, 1001, 1⟩

/-- Primary instance: verifies to `blkB`, store already trusts `blkA`. -/
def instOkA : Instance :=
  { light_client := lcStatic blkB, state := ⟨[(blkA, Status.trusted)]⟩ }

/-- An idle witness instance. -/
def instIdle : Instance :=
  { light_client := lcStatic blkB, state := ⟨[]⟩ }

/-- A primary instance whose verification always fails. -/
def instBad : Instance :=
  { light_client := lcFailing, state := ⟨[(blkA, Status.trusted)]⟩ }

/-- A fork detector that never detects anything. -/
def detectorNone : LightBlock → LightBlock → List Instance → Except ErrorKind ForkDetection :=
  fun _ _ _ => .ok ForkDetection.notDetected

/-- An evidence reporter that accepts everything with hash 0. -/
def reporterOk : Evidence → PeerId → Except IoErr EvHash :=
  fun _ _ => .ok 0

/-- An evidence reporter that always fails with transport error 7. -/
def reporterBad : Evidence → PeerId → Except IoErr EvHash :=
  fun _ _ => .error 7

/-- A supervisor with an empty peer list. -/
def supEmpty : Supervisor :=
  { peers := ⟨none, [], [], []⟩
    fork_detector := detectorNone
    evidence_reporter := reporterOk }

/-- A supervisor with primary 0 and witness 1, happy path. -/
def supHappy : Supervisor :=
  { peers := ⟨some 0, [1], [], [(0, instOkA), (1, instIdle)]⟩
    fork_detector := detectorNone
    evidence_reporter := reporterOk }

/-- A supervisor with a primary but no witness at all. -/
def supNoWit : Supervisor :=
  { peers := ⟨some 0, [], [], [(0, instOkA)]⟩
    fork_detector := detectorNone
    evidence_reporter := reporterOk }

/-- A supervisor whose primary fails verification, with witness 1 available. -/
def supBadPrimary : Supervisor :=
  { peers := ⟨some 0, [1], [], [(0, instBad), (1, instIdle)]⟩
    fork_detector := detectorNone
    evidence_reporter := reporterOk }

/-- A fork detector that reports a real fork between `blkB` and `blkW`. -/
def detectorFork : LightBlock → LightBlock → List Instance → Except ErrorKind ForkDetection :=
  fun _ _ _ => .ok (ForkDetection.detected [Fork.forked blkB blkW])

/-- A supervisor whose fork detector reports a real fork by witness 1. -/
def supFork : Supervisor :=
  { peers := ⟨some 0, [1], [], [(0, instOkA), (1, instIdle)]⟩
    fork_detector := detectorFork
    evidence_reporter := reporterOk }

/-- Like `supFork`, but the evidence reporter fails. -/
def supForkBadReporter : Supervisor :=
  { peers := ⟨some 0, [1], [], [(0, instOkA), (1, instIdle)]⟩
    fork_detector := detectorFork
    evidence_reporter := reporterBad }

/-- A fork detector that reports a timeout of witness 1. -/
def detectorTimeout : LightBlock → LightBlock → List Instance → Except ErrorKind ForkDetection :=
  fun _ _ _ => .ok (ForkDetection.detected [Fork.timeout 1 0])

/-- A supervisor whose fork detector reports a timeout of witness 1. -/
def supTimeout : Supervisor :=
  { peers := ⟨some 0, [1], [], [(0, instOkA), (1, instIdle)]⟩
    fork_detector := detectorTimeout
    evidence_reporter := reporterOk }

/-- The state of `supTimeout` after witness 1 has been marked faulty. -/
def supTimeoutMarked : Supervisor :=
  { peers := ⟨some 0, [], [1], [(0, instOkA), (1, instIdle)]⟩
    fork_detector := detectorTimeout
    evidence_reporter := reporterOk }

/-- A production reporter whose peer map covers witness 1. -/
def repMap1 : ProdEvidenceReporter := ⟨[(1, 42)]⟩

/-!
Helper lemmas about the `PeerList` model.
-/

theorem PeerList.witnesses_setInstance (pl : PeerList) (p : PeerId) (i : Instance) :
    (pl.setInstance p i).witnesses = pl.witnesses := rfl

theorem PeerList.primary_setInstance (pl : PeerList) (p : PeerId) (i : Instance) :
    (pl.setInstance p i).primary = pl.primary := rfl

theorem PeerList.primary_mark (pl : PeerList) (p : PeerId) :
    (pl.mark_witness_as_faulty p).primary = pl.primary := by
  unfold PeerList.mark_witness_as_faulty
  split <;> rfl

theorem PeerList.witnessInstances_of_no_witnesses (pl : PeerList)
    (h : pl.witnesses = []) : pl.witnessInstances = [] := by
  simp [PeerList.witnessInstances, h]

theorem find?_instancesSet : ∀ (l : List (PeerId × Instance)) (p : PeerId) (i : Instance),
    (l.find? (fun e => e.1 == p)).isSome = true →
    (instancesSet l p i).find? (fun e => e.1 == p) = some (p, i)
  | [], p, i, h => by simp [List.find?] at h
  | e :: t, p, i, h => by
      by_cases hp : (e.1 == p) = true
      · have hset : instancesSet (e :: t) p i = (p, i) :: instancesSet t p i := by
          show (if e.1 == p then (p, i) else e) :: instancesSet t p i = _
          rw [hp]
          simp
        rw [hset, List.find?_cons_of_pos _ (by simp)]
      · have hb : (e.1 == p) = false := by simpa using hp
        have hset : instancesSet (e :: t) p i = e :: instancesSet t p i := by
          show (if e.1 == p then (p, i) else e) :: instancesSet t p i = _
          rw [hb]
          simp
        have hrec : (t.find? (fun e => e.1 == p)).isSome = true := by
          rw [List.find?_cons_of_neg _ (by simp [hb])] at h
          exact h
        rw [hset, List.find?_cons_of_neg _ (by simp [hb])]
        exact find?_instancesSet t p i hrec

theorem instancesFind_instancesSet (l : List (PeerId × Instance)) (p : PeerId)
    (i j : Instance) (h : instancesFind l p = some j) :
    instancesFind (instancesSet l p i) p = some i := by
  have hs : (l.find? (fun e => e.1 == p)).isSome = true := by
    unfold instancesFind at h
    cases hf : l.find? (fun e => e.1 == p) with
    | none => rw [hf] at h; simp at h
    | some e => simp [hf]
  unfold instancesFind
  rw [find?_instancesSet l p i hs]
  rfl

/-- Updating the primary instance preserves `primaryWithId` up to the new
instance. -/
theorem PeerList.primaryWithId_setInstance (pl : PeerList) (p : PeerId)
    (i j : Instance) (h : pl.primaryWithId = some (p, j)) :
    (pl.setInstance p i).primaryWithId = some (p, i) := by
  unfold PeerList.primaryWithId at h ⊢
  cases hp : pl.primary with
  | none => simp [hp] at h
  | some q =>
      cases hq : pl.instanceOf q with
      | none => simp [hp, hq] at h
      | some k =>
          have h' : q = p ∧ k = j := by simpa [hp, hq] using h
          obtain ⟨rfl, rfl⟩ := h'
          have hfind : (pl.setInstance q i).instanceOf q = some i :=
            instancesFind_instancesSet pl.instances q i k hq
          simp [PeerList.primary_setInstance, hp, hfind]

/-!
Claim theorems.
-/

/-- C1 (counterexample): on the empty peer list every verification entry
point — and `latest_trusted`, and the event loop serving a handle request —
panics on the `#[pre(self.peers.primary().is_some())]` contract assert; in
particular no `NoPrimary` error value is ever returned. -/
theorem C1_counterexample :
    Supervisor.verify_to_highest 5 supEmpty = PanicOr.panicked ∧
    Supervisor.verify_to_target 5 supEmpty 10 = PanicOr.panicked ∧
    supEmpty.latest_trusted = PanicOr.panicked ∧
    Supervisor.run 5 1 supEmpty [HandleInput.verifyToHighest ChannelState.connected] 1 =
      RunOutcome.panicked ∧
    (PanicOr.panicked ≠
      (PanicOr.value (Except.error ErrorKind.noPrimary) :
        PanicOr (Except ErrorKind LightBlock))) :=
  ⟨rfl, rfl, rfl, rfl, fun h => PanicOr.noConfusion h⟩

/-- C1 (amended): invoked while the peer list has no primary, `verify`,
`verify_to_highest`, `verify_to_target` and `latest_trusted` all panic on
their `#[pre(self.peers.primary().is_some())]` contract assert before any
body runs, and the event loop serving such a handle request panics likewise;
no error — `NoPrimary` or otherwise — is returned. -/
theorem C1_no_primary_behavior (sup : Supervisor) (fuel : Nat) (height : Option Height)
    (h : sup.peers.primary = none) :
    Supervisor.verify fuel sup height = PanicOr.panicked ∧
    Supervisor.verify_to_highest fuel sup = PanicOr.panicked ∧
    (∀ ht, Supervisor.verify_to_target fuel sup ht = PanicOr.panicked) ∧
    sup.latest_trusted = PanicOr.panicked ∧
    (∀ vf fl ext r rest, Supervisor.run vf (fl + 1) sup
      (HandleInput.latestTrusted r :: rest) ext = RunOutcome.panicked) ∧
    (∀ vf fl ext r rest, Supervisor.run vf (fl + 1) sup
      (HandleInput.verifyToHighest r :: rest) ext = RunOutcome.panicked) := by
  have hpw : sup.peers.primaryWithId = none := by
    simp [PeerList.primaryWithId, h]
  have hlt : sup.latest_trusted = PanicOr.panicked := by
    simp [Supervisor.latest_trusted, hpw]
  have hvh : Supervisor.verify_to_highest fuel sup = PanicOr.panicked := by
    simp [Supervisor.verify_to_highest, hpw]
  refine ⟨by simp [Supervisor.verify, hpw], hvh,
    fun ht => by simp [Supervisor.verify_to_target, hpw], hlt, ?_, ?_⟩
  · intro vf fl ext r rest
    simp only [Supervisor.run, channelRecv]
    rw [hlt]
  · intro vf fl ext r rest
    have hvh' : Supervisor.verify_to_highest vf sup = PanicOr.panicked := by
      simp [Supervisor.verify_to_highest, hpw]
    simp only [Supervisor.run, channelRecv]
    rw [hvh']

/-- C1 (amended) witnessed on a concrete empty peer list. -/
theorem C1_no_primary_witness :
    Supervisor.verify 1 supEmpty none = PanicOr.panicked ∧
    Supervisor.verify_to_highest 1 supEmpty = PanicOr.panicked ∧
    Supervisor.verify_to_target 1 supEmpty 10 = PanicOr.panicked ∧
    supEmpty.latest_trusted = PanicOr.panicked ∧
    Supervisor.run 1 1 supEmpty [HandleInput.latestTrusted ChannelState.connected] 0 =
      RunOutcome.panicked := by
  obtain ⟨h1, h2, h3, h4, h5, -⟩ := C1_no_primary_behavior supEmpty 1 none rfl
  exact ⟨h1, h2, h3 10, h4, h5 1 0 0 ChannelState.connected []⟩

/-- C5: when the primary's verification succeeds but the witness set is
empty at fork-detection time, the call fails with `NoWitnesses`; the result
is the same for every fork detector, so fork detection is never attempted on
an empty witness set, and `NoWitnesses` is distinct from `NoWitnessLeft`. -/
theorem C5_empty_witnesses_error (sup : Supervisor) (height : Option Height)
    (fuel : Nat) (pid : PeerId) (primary : Instance) (lb ts : LightBlock)
    (hp : sup.peers.primaryWithId = some (pid, primary))
    (hv : (primary.runVerification height).1 = .ok lb)
    (ht : Instance.latest_trusted
        { primary with state := (primary.runVerification height).2 } = some ts)
    (hw : sup.peers.witnesses = []) :
    (∀ d lb' ts', Supervisor.detect_forks { sup with fork_detector := d } lb' ts' =
        .error ErrorKind.noWitnesses) ∧
    (Supervisor.verifyLoop (fuel + 1) sup height).result =
      some (.error ErrorKind.noWitnesses) ∧
    ErrorKind.noWitnesses ≠ ErrorKind.noWitnessLeft := by
  refine ⟨?_, ?_, by decide⟩
  · intro d lb' ts'
    simp [Supervisor.detect_forks, PeerList.witnessInstances, hw]
  · simp [Supervisor.verifyLoop, Supervisor.verifyStep, hp, hv, ht,
      Supervisor.detect_forks, PeerList.witnessInstances, PeerList.setInstance, hw,
      VerifyOutcome.result]

/-- C5 witnessed on a concrete supervisor with a primary and no witnesses. -/
theorem C5_empty_witnesses_witness :
    Supervisor.detect_forks { supNoWit with fork_detector := detectorNone } blkA blkA =
      .error ErrorKind.noWitnesses ∧
    (Supervisor.verifyLoop 1 supNoWit none).result = some (.error ErrorKind.noWitnesses) ∧
    ErrorKind.noWitnesses ≠ ErrorKind.noWitnessLeft := by
  obtain ⟨h1, h2, h3⟩ :=
    C5_empty_witnesses_error supNoWit none 0 0 instOkA blkB blkA rfl rfl rfl rfl
  exact ⟨h1 detectorNone blkA blkA, h2, h3⟩

/-- A failed `swap_primary` can only fail with `NoWitnessLeft`. -/
theorem PeerList.swap_primary_error (pl : PeerList) (e : ErrorKind)
    (h : pl.swap_primary = .error e) : e = ErrorKind.noWitnessLeft := by
  unfold PeerList.swap_primary at h
  cases hw : pl.witnesses with
  | nil => rw [hw] at h; simp at h; exact h.symm
  | cons w ws => rw [hw] at h; simp at h

/-- C8: on a verification error from the primary's `LightClient`, the
supervisor swaps the primary: if the swap succeeds the loop continues with
the new primary and the verification error is discarded (the outcome does
not mention it); if the swap fails, `NoWitnessLeft` is surfaced. -/
theorem C8_verification_error_swaps (sup : Supervisor) (height : Option Height)
    (pid : PeerId) (primary : Instance) (ev : VerifError)
    (hp : sup.peers.primaryWithId = some (pid, primary))
    (hv : (primary.runVerification height).1 = .error ev) :
    (∀ pl', (sup.peers.setInstance pid
          { primary with state := (primary.runVerification height).2 }).swap_primary =
            .ok pl' →
        sup.verifyStep height = .cont { sup with peers := pl' } ∧
        ∀ fuel, Supervisor.verifyLoop (fuel + 1) sup height =
          Supervisor.verifyLoop fuel { sup with peers := pl' } height) ∧
    (∀ e, (sup.peers.setInstance pid
          { primary with state := (primary.runVerification height).2 }).swap_primary =
            .error e →
        sup.verifyStep height = .done (.error ErrorKind.noWitnessLeft)
          { sup with peers := (sup.peers.setInstance pid
              { primary with state := (primary.runVerification height).2 }) }) := by
  constructor
  · intro pl' hsw
    have hstep : sup.verifyStep height = .cont { sup with peers := pl' } := by
      simp only [Supervisor.verifyStep, hp]
      rw [hv, hsw]
    refine ⟨hstep, fun fuel => ?_⟩
    simp only [Supervisor.verifyLoop, hstep]
  · intro e hsw
    have he : e = ErrorKind.noWitnessLeft :=
      PeerList.swap_primary_error _ e hsw
    subst he
    simp only [Supervisor.verifyStep, hp]
    rw [hv, hsw]

/-- C8 witnessed: a concrete failing primary with one witness left; the
step continues with the promoted witness. -/
theorem C8_verification_error_witness :
    supBadPrimary.verifyStep none =
      .cont { supBadPrimary with peers :=
        ⟨some 1, [], [0], instancesSet supBadPrimary.peers.instances 0 instBad⟩ } := by
  have h := (C8_verification_error_swaps supBadPrimary none 0 instBad 0 rfl rfl).1
  exact (h _ rfl).1

/-- If one iteration of the verify loop returns `Ok(lb)`, the final state's
primary store contains `lb` with status `Trusted`. -/
theorem verifyStep_ok_trusted (sup : Supervisor) (height : Option Height) (lb : LightBlock)
    (sup' : Supervisor) (h : sup.verifyStep height = .done (.ok lb) sup') :
    ∃ pid inst, sup'.peers.primaryWithId = some (pid, inst) ∧
      (lb, Status.trusted) ∈ inst.state.light_store := by
  unfold Supervisor.verifyStep at h
  cases hp : sup.peers.primaryWithId with
  | none => rw [hp] at h; simp at h
  | some pi =>
      obtain ⟨pid, primary⟩ := pi
      rw [hp] at h
      simp only [] at h
      cases hv : (primary.runVerification height).1 with
      | error ev =>
          rw [hv] at h
          cases hsw : (sup.peers.setInstance pid
              { primary with state := (primary.runVerification height).2 }).swap_primary with
          | error e => rw [hsw] at h; simp at h
          | ok pl' => rw [hsw] at h; simp at h
      | ok light_block =>
          rw [hv] at h
          simp only [] at h
          cases ht : Instance.latest_trusted
              { primary with state := (primary.runVerification height).2 } with
          | none => rw [ht] at h; simp at h
          | some trusted_state =>
              rw [ht] at h
              simp only [] at h
              cases hd : Supervisor.detect_forks
                  { sup with peers := (sup.peers.setInstance pid
                      { primary with state := (primary.runVerification height).2 }) }
                  light_block trusted_state with
              | error e => rw [hd] at h; simp at h
              | ok outcome =>
                  rw [hd] at h
                  cases outcome with
                  | detected forks =>
                      simp only [] at h
                      cases hpf : Supervisor.process_forks
                          { sup with peers := (sup.peers.setInstance pid
                              { primary with state := (primary.runVerification height).2 }) }
                          forks with
                      | error e => rw [hpf] at h; simp at h
                      | ok fs =>
                          obtain ⟨forked, sup2⟩ := fs
                          rw [hpf] at h
                          simp only [] at h
                          by_cases hf : forked.isEmpty = true
                          · rw [if_pos hf] at h; simp at h
                          · rw [if_neg hf] at h; simp at h
                  | notDetected =>
                      simp only [] at h
                      have hp1 : (sup.peers.setInstance pid
                          { primary with state := (primary.runVerification height).2
                          }).primaryWithId =
                          some (pid, { primary with
                            state := (primary.runVerification height).2 }) :=
                        PeerList.primaryWithId_setInstance sup.peers pid _ primary hp
                      rw [hp1] at h
                      simp only [] at h
                      simp only [StepOutcome.done.injEq, Except.ok.injEq] at h
                      obtain ⟨hlb, hsup⟩ := h
                      subst hlb
                      refine ⟨pid,
                        Instance.trust_block
                          { primary with state := (primary.runVerification height).2 }
                          light_block, ?_, ?_⟩
                      · rw [← hsup]
                        exact PeerList.primaryWithId_setInstance _ pid _ _ hp1
                      · simp [Instance.trust_block, LightStore.update]

/-- Unfolding the verify loop when the iteration returns. -/
theorem verifyLoop_succ_done (n : Nat) (sup : Supervisor) (height : Option Height)
    (r : Except ErrorKind LightBlock) (sup' : Supervisor)
    (h : sup.verifyStep height = .done r sup') :
    Supervisor.verifyLoop (n + 1) sup height = .out r sup' := by
  rw [Supervisor.verifyLoop, h]

/-- Unfolding the verify loop when the iteration continues. -/
theorem verifyLoop_succ_cont (n : Nat) (sup : Supervisor) (height : Option Height)
    (sup' : Supervisor) (h : sup.verifyStep height = .cont sup') :
    Supervisor.verifyLoop (n + 1) sup height = Supervisor.verifyLoop n sup' height := by
  rw [Supervisor.verifyLoop, h]

/-- C4: whenever `verify_to_highest`/`verify_to_target` (the verify loop)
returns `Ok(lb)`, the primary instance's light store of the state the call
ends in contains `lb` with status `Trusted` — the block is stored as
`Trusted` before return. -/
theorem C4_returned_block_trusted (fuel : Nat) (sup : Supervisor) (height : Option Height)
    (lb : LightBlock)
    (h : (Supervisor.verifyLoop fuel sup height).result = some (.ok lb)) :
    ∃ pid inst, (Supervisor.verifyLoop fuel sup height).endState.peers.primaryWithId =
        some (pid, inst) ∧ (lb, Status.trusted) ∈ inst.state.light_store := by
  induction fuel generalizing sup with
  | zero => simp [Supervisor.verifyLoop, VerifyOutcome.result] at h
  | succ n ih =>
      cases hstep : sup.verifyStep height with
      | done r sup' =>
          rw [verifyLoop_succ_done n sup height r sup' hstep] at h ⊢
          have hr : r = .ok lb := by simpa [VerifyOutcome.result] using h
          subst hr
          simpa [VerifyOutcome.endState] using
            verifyStep_ok_trusted sup height lb sup' hstep
      | cont sup' =>
          rw [verifyLoop_succ_cont n sup height sup' hstep] at h ⊢
          exact ih sup' h

/-- C4 witnessed on the happy-path supervisor: the returned block at height
100 is in the primary store with status `Trusted`. -/
theorem C4_returned_block_trusted_witness :
    ∃ pid inst, (Supervisor.verifyLoop 1 supHappy none).endState.peers.primaryWithId =
        some (pid, inst) ∧ (blkB, Status.trusted) ∈ inst.state.light_store :=
  C4_returned_block_trusted 1 supHappy none blkB rfl

theorem PeerList.not_mem_witnesses_mark (pl : PeerList) (p : PeerId) :
    p ∉ (pl.mark_witness_as_faulty p).witnesses := by
  unfold PeerList.mark_witness_as_faulty
  split
  · intro hmem
    have := List.mem_filter.mp hmem
    simp at this
  · intro hmem
    rename_i hnot
    exact hnot hmem

theorem PeerList.mark_witnesses_subset (pl : PeerList) (p q : PeerId)
    (h : q ∈ (pl.mark_witness_as_faulty p).witnesses) : q ∈ pl.witnesses := by
  unfold PeerList.mark_witness_as_faulty at h
  split at h
  · exact (List.mem_filter.mp h).1
  · exact h

/-- Processing forks leaves the collaborators and the primary untouched and
only ever removes witnesses. -/
theorem process_forks_state : ∀ (sup : Supervisor) (forks : List Fork)
    (forked : List PeerId) (sup' : Supervisor),
    sup.process_forks forks = .ok (forked, sup') →
    sup'.evidence_reporter = sup.evidence_reporter ∧
    sup'.fork_detector = sup.fork_detector ∧
    sup'.peers.primary = sup.peers.primary ∧
    (∀ p, p ∈ sup'.peers.witnesses → p ∈ sup.peers.witnesses)
  | sup, [], forked, sup', h => by
      simp only [Supervisor.process_forks, Except.ok.injEq, Prod.mk.injEq] at h
      obtain ⟨h1, h2⟩ := h
      subst h2
      exact ⟨rfl, rfl, rfl, fun p hp => hp⟩
  | sup, Fork.forked pb wb :: rest, forked, sup', h => by
      simp only [Supervisor.process_forks] at h
      cases hr : sup.report_evidence wb.provider pb wb with
      | error e => rw [hr] at h; simp at h
      | ok u =>
          cases u
          rw [hr] at h
          simp only [] at h
          cases hrec : sup.process_forks rest with
          | error e => rw [hrec] at h; simp at h
          | ok fs =>
              obtain ⟨f2, s2⟩ := fs
              rw [hrec] at h
              simp only [Except.ok.injEq, Prod.mk.injEq] at h
              obtain ⟨h1, h2⟩ := h
              subst h2
              exact process_forks_state sup rest f2 _ hrec
  | sup, Fork.timeout p e :: rest, forked, sup', h => by
      simp only [Supervisor.process_forks] at h
      have ih := process_forks_state _ rest forked sup' h
      refine ⟨ih.1, ih.2.1, ?_, ?_⟩
      · rw [ih.2.2.1]
        exact PeerList.primary_mark sup.peers p
      · intro q hq
        exact PeerList.mark_witnesses_subset _ _ _ (ih.2.2.2 q hq)
  | sup, Fork.faulty b e :: rest, forked, sup', h => by
      simp only [Supervisor.process_forks] at h
      have ih := process_forks_state _ rest forked sup' h
      refine ⟨ih.1, ih.2.1, ?_, ?_⟩
      · rw [ih.2.2.1]
        exact PeerList.primary_mark sup.peers b.provider
      · intro q hq
        exact PeerList.mark_witnesses_subset _ _ _ (ih.2.2.2 q hq)

/-- Every peer in the `forked` list returned by `process_forks` is the
provider of a `Forked` entry whose evidence was successfully submitted to
the reporter. -/
theorem process_forks_forked_src : ∀ (sup : Supervisor) (forks : List Fork)
    (forked : List PeerId) (sup' : Supervisor),
    sup.process_forks forks = .ok (forked, sup') →
    ∀ p, p ∈ forked → ∃ pb wb hash, Fork.forked pb wb ∈ forks ∧ wb.provider = p ∧
      sup.evidence_reporter
        (Evidence.conflictingHeaders ⟨pb.signed_header, wb.signed_header⟩) p = .ok hash
  | sup, [], forked, sup', h => by
      simp only [Supervisor.process_forks, Except.ok.injEq, Prod.mk.injEq] at h
      obtain ⟨h1, h2⟩ := h
      subst h1
      intro p hp
      simp at hp
  | sup, Fork.forked pb wb :: rest, forked, sup', h => by
      simp only [Supervisor.process_forks] at h
      cases hr : sup.report_evidence wb.provider pb wb with
      | error e => rw [hr] at h; simp at h
      | ok u =>
          cases u
          rw [hr] at h
          simp only [] at h
          cases hrec : sup.process_forks rest with
          | error e => rw [hrec] at h; simp at h
          | ok fs =>
              obtain ⟨f2, s2⟩ := fs
              rw [hrec] at h
              simp only [Except.ok.injEq, Prod.mk.injEq] at h
              obtain ⟨h1, h2⟩ := h
              subst h1
              intro p hp
              rcases List.mem_cons.mp hp with hph | hpt
              · subst hph
                have hhash : ∃ hash, sup.evidence_reporter
                    (Evidence.conflictingHeaders ⟨pb.signed_header, wb.signed_header⟩)
                    wb.provider = .ok hash := by
                  unfold Supervisor.report_evidence at hr
                  cases hrep : sup.evidence_reporter
                      (Evidence.conflictingHeaders ⟨pb.signed_header, wb.signed_header⟩)
                      wb.provider with
                  | error e0 => rw [hrep] at hr; simp at hr
                  | ok hash => exact ⟨hash, rfl⟩
                obtain ⟨hash, hh⟩ := hhash
                exact ⟨pb, wb, hash, List.mem_cons_self _ _, rfl, hh⟩
              · obtain ⟨pb', wb', hash', hm, hp', hrep'⟩ :=
                  process_forks_forked_src sup rest f2 s2 hrec p hpt
                exact ⟨pb', wb', hash', List.mem_cons_of_mem _ hm, hp', hrep'⟩
  | sup, Fork.timeout q e :: rest, forked, sup', h => by
      simp only [Supervisor.process_forks] at h
      intro p hp
      obtain ⟨pb', wb', hash', hm, hp', hrep'⟩ :=
        process_forks_forked_src _ rest forked sup' h p hp
      exact ⟨pb', wb', hash', List.mem_cons_of_mem _ hm, hp', hrep'⟩
  | sup, Fork.faulty b e :: rest, forked, sup', h => by
      simp only [Supervisor.process_forks] at h
      intro p hp
      obtain ⟨pb', wb', hash', hm, hp', hrep'⟩ :=
        process_forks_forked_src _ rest forked sup' h p hp
      exact ⟨pb', wb', hash', List.mem_cons_of_mem _ hm, hp', hrep'⟩

/-- If the reporter fails for any `Forked` entry of the list, `process_forks`
surfaces an `Io` error (and hence never returns a `forked` list). -/
theorem process_forks_fail : ∀ (sup : Supervisor) (forks : List Fork)
    (pb wb : LightBlock) (e : IoErr),
    Fork.forked pb wb ∈ forks →
    sup.evidence_reporter
      (Evidence.conflictingHeaders ⟨pb.signed_header, wb.signed_header⟩) wb.provider =
        .error e →
    ∃ e', sup.process_forks forks = .error (ErrorKind.io e')
  | sup, [], pb, wb, e, hm, _ => by simp at hm
  | sup, Fork.forked pb' wb' :: rest, pb, wb, e, hm, hrep => by
      cases hr : sup.report_evidence wb'.provider pb' wb' with
      | error e0 =>
          have he0 : ∃ e1, sup.report_evidence wb'.provider pb' wb' =
              .error (ErrorKind.io e1) := by
            unfold Supervisor.report_evidence
            cases hq : sup.evidence_reporter
                (Evidence.conflictingHeaders ⟨pb'.signed_header, wb'.signed_header⟩)
                wb'.provider with
            | error e1 => exact ⟨e1, rfl⟩
            | ok hash =>
                unfold Supervisor.report_evidence at hr
                rw [hq] at hr
                simp at hr
          obtain ⟨e1, he1⟩ := he0
          refine ⟨e1, ?_⟩
          simp only [Supervisor.process_forks]
          rw [he1]
      | ok u =>
          cases u
          rcases List.mem_cons.mp hm with hmh | hmt
          · exfalso
            have : Fork.forked pb' wb' = Fork.forked pb wb := hmh.symm ▸ rfl
            obtain ⟨h1, h2⟩ := Fork.forked.injEq .. ▸ this
            unfold Supervisor.report_evidence at hr
            rw [h1, h2] at hr
            rw [hrep] at hr
            simp at hr
          · obtain ⟨e', he'⟩ := process_forks_fail sup rest pb wb e hmt hrep
            refine ⟨e', ?_⟩
            simp only [Supervisor.process_forks]
            rw [hr]
            simp only []
            rw [he']
  | sup, Fork.timeout q er :: rest, pb, wb, e, hm, hrep => by
      have hmt : Fork.forked pb wb ∈ rest := by
        rcases List.mem_cons.mp hm with hmh | hmt
        · exact absurd hmh (by simp)
        · exact hmt
      obtain ⟨e', he'⟩ := process_forks_fail
        { sup with peers := sup.peers.mark_witness_as_faulty q } rest pb wb e hmt hrep
      refine ⟨e', ?_⟩
      simp only [Supervisor.process_forks]
      exact he'
  | sup, Fork.faulty b er :: rest, pb, wb, e, hm, hrep => by
      have hmt : Fork.forked pb wb ∈ rest := by
        rcases List.mem_cons.mp hm with hmh | hmt
        · exact absurd hmh (by simp)
        · exact hmt
      obtain ⟨e', he'⟩ := process_forks_fail
        { sup with peers := sup.peers.mark_witness_as_faulty b.provider } rest pb wb e hmt hrep
      refine ⟨e', ?_⟩
      simp only [Supervisor.process_forks]
      exact he'

/-- A failed `process_forks` can only fail with an `Io` error (a failed
evidence report). -/
theorem process_forks_error_io : ∀ (sup : Supervisor) (forks : List Fork) (e : ErrorKind),
    sup.process_forks forks = .error e → ∃ e', e = ErrorKind.io e'
  | sup, [], e, h => by simp [Supervisor.process_forks] at h
  | sup, Fork.forked pb wb :: rest, e, h => by
      simp only [Supervisor.process_forks] at h
      cases hr : sup.report_evidence wb.provider pb wb with
      | error e0 =>
          rw [hr] at h
          simp only [Except.error.injEq] at h
          subst h
          unfold Supervisor.report_evidence at hr
          cases hq : sup.evidence_reporter
              (Evidence.conflictingHeaders ⟨pb.signed_header, wb.signed_header⟩)
              wb.provider with
          | error e1 =>
              rw [hq] at hr
              simp only [Except.error.injEq] at hr
              exact ⟨e1, hr.symm⟩
          | ok hash => rw [hq] at hr; simp at hr
      | ok u =>
          cases u
          rw [hr] at h
          simp only [] at h
          cases hrec : sup.process_forks rest with
          | error e0 =>
              rw [hrec] at h
              simp only [Except.error.injEq] at h
              subst h
              exact process_forks_error_io sup rest e0 hrec
          | ok fs =>
              obtain ⟨f2, s2⟩ := fs
              rw [hrec] at h
              simp at h
  | sup, Fork.timeout q er :: rest, e, h => by
      simp only [Supervisor.process_forks] at h
      exact process_forks_error_io _ rest e h
  | sup, Fork.faulty b er :: rest, e, h => by
      simp only [Supervisor.process_forks] at h
      exact process_forks_error_io _ rest e h

/-- One verify iteration never changes the evidence reporter or the fork
detector. -/
theorem verifyStep_collaborators (sup : Supervisor) (height : Option Height) :
    ((sup.verifyStep height).sup).evidence_reporter = sup.evidence_reporter ∧
    ((sup.verifyStep height).sup).fork_detector = sup.fork_detector := by
  unfold Supervisor.verifyStep
  split
  · exact ⟨rfl, rfl⟩
  · simp only []
    repeat' split
    all_goals try exact ⟨rfl, rfl⟩
    all_goals
      (rename_i heq hif
       exact ⟨(process_forks_state _ _ _ _ heq).1, (process_forks_state _ _ _ _ heq).2.1⟩)

/-- If one verify iteration returns `ForkDetected(peers)`, every peer in the
list is the provider of a conflicting witness block whose evidence the
reporter accepted. -/
theorem verifyStep_forkDetected (sup : Supervisor) (height : Option Height)
    (peers : List PeerId) (sup' : Supervisor)
    (hdet : ∀ lb ts ws peers', sup.fork_detector lb ts ws ≠
      .error (ErrorKind.forkDetected peers'))
    (h : sup.verifyStep height = .done (.error (.forkDetected peers)) sup') :
    ∀ p ∈ peers, ∃ (pb wb : LightBlock) (hash : EvHash), wb.provider = p ∧
      sup.evidence_reporter
        (Evidence.conflictingHeaders ⟨pb.signed_header, wb.signed_header⟩) p = .ok hash := by
  unfold Supervisor.verifyStep at h
  cases hp : sup.peers.primaryWithId with
  | none => rw [hp] at h; simp at h
  | some pi =>
      obtain ⟨pid, primary⟩ := pi
      rw [hp] at h
      simp only [] at h
      cases hv : (primary.runVerification height).1 with
      | error ev =>
          rw [hv] at h
          cases hsw : (sup.peers.setInstance pid
              { primary with state := (primary.runVerification height).2 }).swap_primary with
          | error e =>
              rw [hsw] at h
              simp only [StepOutcome.done.injEq] at h
              obtain ⟨h1, -⟩ := h
              have := PeerList.swap_primary_error _ e hsw
              subst this
              simp at h1
          | ok pl' => rw [hsw] at h; simp at h
      | ok light_block =>
          rw [hv] at h
          simp only [] at h
          cases ht : Instance.latest_trusted
              { primary with state := (primary.runVerification height).2 } with
          | none => rw [ht] at h; simp at h
          | some trusted_state =>
              rw [ht] at h
              simp only [] at h
              cases hd : Supervisor.detect_forks
                  { sup with peers := (sup.peers.setInstance pid
                      { primary with state := (primary.runVerification height).2 }) }
                  light_block trusted_state with
              | error e =>
                  rw [hd] at h
                  simp only [StepOutcome.done.injEq] at h
                  obtain ⟨h1, -⟩ := h
                  have hne : e = ErrorKind.forkDetected peers := by
                    simpa using h1
                  subst hne
                  exfalso
                  unfold Supervisor.detect_forks at hd
                  split at hd
                  · simp at hd
                  · exact hdet _ _ _ _ hd
              | ok outcome =>
                  rw [hd] at h
                  cases outcome with
                  | detected forks =>
                      simp only [] at h
                      cases hpf : Supervisor.process_forks
                          { sup with peers := (sup.peers.setInstance pid
                              { primary with state := (primary.runVerification height).2 }) }
                          forks with
                      | error e =>
                          rw [hpf] at h
                          simp only [StepOutcome.done.injEq, Except.error.injEq] at h
                          obtain ⟨h1, -⟩ := h
                          obtain ⟨e', he'⟩ := process_forks_error_io _ forks e hpf
                          rw [he'] at h1
                          simp at h1
                      | ok fs =>
                          obtain ⟨forked, sup2⟩ := fs
                          rw [hpf] at h
                          simp only [] at h
                          by_cases hf : forked.isEmpty = true
                          · rw [if_pos hf] at h; simp at h
                          · rw [if_neg hf] at h
                            simp only [StepOutcome.done.injEq, Except.error.injEq,
                              ErrorKind.forkDetected.injEq] at h
                            obtain ⟨h1, h2⟩ := h
                            subst h1
                            intro p hp2
                            obtain ⟨pb, wb, hash, -, hprov, hrep⟩ :=
                              process_forks_forked_src _ forks forked sup2 hpf p hp2
                            exact ⟨pb, wb, hash, hprov, hrep⟩
                  | notDetected =>
                      simp only [] at h
                      cases hp1 : (sup.peers.setInstance pid
                          { primary with
                            state := (primary.runVerification height).2 }).primaryWithId with
                      | none => rw [hp1] at h; simp at h
                      | some pi2 =>
                          obtain ⟨pid2, primary2⟩ := pi2
                          rw [hp1] at h
                          simp at h

/-- Every `Timeout`/`Faulty` entry's peer ends up outside the witness set
after `process_forks`. -/
theorem process_forks_marks : ∀ (sup : Supervisor) (forks : List Fork)
    (forked : List PeerId) (sup' : Supervisor),
    sup.process_forks forks = .ok (forked, sup') →
    (∀ q e, Fork.timeout q e ∈ forks → q ∉ sup'.peers.witnesses) ∧
    (∀ b e, Fork.faulty b e ∈ forks → b.provider ∉ sup'.peers.witnesses)
  | sup, [], forked, sup', h => by
      constructor
      · intro q e hm; simp at hm
      · intro b e hm; simp at hm
  | sup, Fork.forked pb wb :: rest, forked, sup', h => by
      simp only [Supervisor.process_forks] at h
      cases hr : sup.report_evidence wb.provider pb wb with
      | error e => rw [hr] at h; simp at h
      | ok u =>
          cases u
          rw [hr] at h
          simp only [] at h
          cases hrec : sup.process_forks rest with
          | error e => rw [hrec] at h; simp at h
          | ok fs =>
              obtain ⟨f2, s2⟩ := fs
              rw [hrec] at h
              simp only [Except.ok.injEq, Prod.mk.injEq] at h
              obtain ⟨h1, h2⟩ := h
              subst h2
              have ih := process_forks_marks sup rest f2 _ hrec
              constructor
              · intro q e hm
                rcases List.mem_cons.mp hm with hmh | hmt
                · exact absurd hmh (by simp)
                · exact ih.1 q e hmt
              · intro b e hm
                rcases List.mem_cons.mp hm with hmh | hmt
                · exact absurd hmh (by simp)
                · exact ih.2 b e hmt
  | sup, Fork.timeout q0 e0 :: rest, forked, sup', h => by
      simp only [Supervisor.process_forks] at h
      have ih := process_forks_marks _ rest forked sup' h
      have hsub := (process_forks_state _ rest forked sup' h).2.2.2
      constructor
      · intro q e hm
        rcases List.mem_cons.mp hm with hmh | hmt
        · have hq : q = q0 := by
            have := Fork.timeout.injEq .. ▸ hmh
            simpa using this.1
          subst hq
          intro hwit
          exact PeerList.not_mem_witnesses_mark sup.peers q (hsub q hwit)
        · exact ih.1 q e hmt
      · intro b e hm
        rcases List.mem_cons.mp hm with hmh | hmt
        · exact absurd hmh (by simp)
        · exact ih.2 b e hmt
  | sup, Fork.faulty b0 e0 :: rest, forked, sup', h => by
      simp only [Supervisor.process_forks] at h
      have ih := process_forks_marks _ rest forked sup' h
      have hsub := (process_forks_state _ rest forked sup' h).2.2.2
      constructor
      · intro q e hm
        rcases List.mem_cons.mp hm with hmh | hmt
        · exact absurd hmh (by simp)
        · exact ih.1 q e hmt
      · intro b e hm
        rcases List.mem_cons.mp hm with hmh | hmt
        · have hb : b = b0 := by
            have := Fork.faulty.injEq .. ▸ hmh
            simpa using this.1
          subst hb
          intro hwit
          exact PeerList.not_mem_witnesses_mark sup.peers b.provider (hsub b.provider hwit)
        · exact ih.2 b e hmt

/-- The verify loop only returns `ForkDetected(peers)` after a successful
evidence report for every peer in the list. -/
theorem verifyLoop_forkDetected (fuel : Nat) (sup : Supervisor) (height : Option Height)
    (peers : List PeerId)
    (hdet : ∀ lb ts ws peers', sup.fork_detector lb ts ws ≠
      .error (ErrorKind.forkDetected peers'))
    (h : (Supervisor.verifyLoop fuel sup height).result =
      some (.error (.forkDetected peers))) :
    ∀ p ∈ peers, ∃ (pb wb : LightBlock) (hash : EvHash), wb.provider = p ∧
      sup.evidence_reporter
        (Evidence.conflictingHeaders ⟨pb.signed_header, wb.signed_header⟩) p = .ok hash := by
  induction fuel generalizing sup with
  | zero => simp [Supervisor.verifyLoop, VerifyOutcome.result] at h
  | succ n ih =>
      cases hstep : sup.verifyStep height with
      | done r sup' =>
          rw [verifyLoop_succ_done n sup height r sup' hstep] at h
          have hr : r = .error (.forkDetected peers) := by
            simpa [VerifyOutcome.result] using h
          subst hr
          exact verifyStep_forkDetected sup height peers sup' hdet hstep
      | cont sup' =>
          rw [verifyLoop_succ_cont n sup height sup' hstep] at h
          have hcol := verifyStep_collaborators sup height
          rw [hstep] at hcol
          have hrep : sup'.evidence_reporter = sup.evidence_reporter := hcol.1
          have hdf : sup'.fork_detector = sup.fork_detector := hcol.2
          have hdet' : ∀ lb ts ws peers', sup'.fork_detector lb ts ws ≠
              .error (ErrorKind.forkDetected peers') := by
            intro lb ts ws ps
            rw [hdf]
            exact hdet lb ts ws ps
          intro p hp
          obtain ⟨pb, wb, hash, h1, h2⟩ := ih sup' hdet' h p hp
          rw [hrep] at h2
          exact ⟨pb, wb, hash, h1, h2⟩

/-- C6: whenever the verify loop returns `ForkDetected(peers)`, every peer
in the list is the provider of a conflicting witness block whose
`ConflictingHeadersEvidence` the reporter accepted before the return; and
whenever a report for some `Forked` entry fails, `process_forks` (and hence
the verify call) surfaces an `Io` error instead of `ForkDetected`. The
hypothesis states the detector contract: the collaborator never fabricates
a `ForkDetected` error of its own. -/
theorem C6_evidence_reported_before_fork_detected (sup : Supervisor)
    (hdet : ∀ lb ts ws peers', sup.fork_detector lb ts ws ≠
      .error (ErrorKind.forkDetected peers')) :
    (∀ fuel height peers,
      (Supervisor.verifyLoop fuel sup height).result =
        some (.error (.forkDetected peers)) →
      ∀ p ∈ peers, ∃ (pb wb : LightBlock) (hash : EvHash), wb.provider = p ∧
        sup.evidence_reporter
          (Evidence.conflictingHeaders ⟨pb.signed_header, wb.signed_header⟩) p =
            .ok hash) ∧
    (∀ (forks : List Fork) (pb wb : LightBlock) (e : IoErr),
      Fork.forked pb wb ∈ forks →
      sup.evidence_reporter
        (Evidence.conflictingHeaders ⟨pb.signed_header, wb.signed_header⟩) wb.provider =
          .error e →
      ∃ e', sup.process_forks forks = .error (ErrorKind.io e')) :=
  ⟨fun fuel height peers h => verifyLoop_forkDetected fuel sup height peers hdet h,
   fun forks pb wb e hm hr => process_forks_fail sup forks pb wb e hm hr⟩

/-- C6 witnessed: a concrete fork of witness 1 yields `ForkDetected [1]`
with accepted evidence, and the same fork with a failing reporter yields an
`Io` error from fork processing. -/
theorem C6_evidence_reported_witness :
    (∃ (pb wb : LightBlock) (hash : EvHash), wb.provider = 1 ∧
      supFork.evidence_reporter
        (Evidence.conflictingHeaders ⟨pb.signed_header, wb.signed_header⟩) 1 = .ok hash) ∧
    (∃ e', supForkBadReporter.process_forks [Fork.forked blkB blkW] =
      .error (ErrorKind.io e')) := by
  have h1 := C6_evidence_reported_before_fork_detected supFork
    (fun lb ts ws ps => by simp [supFork, detectorFork])
  have h2 := C6_evidence_reported_before_fork_detected supForkBadReporter
    (fun lb ts ws ps => by simp [supForkBadReporter, detectorFork])
  constructor
  · exact h1.1 1 none [1] rfl 1 (by simp)
  · exact h2.2 [Fork.forked blkB blkW] blkB blkW 7 (by simp) rfl

/-- C7: `process_forks` marks each `Timeout` peer and each `Faulty` block's
provider as faulty (they leave the witness set) and adds neither to the
`forked` list — only providers of `Forked` entries appear there; and when
the detected fork list produces an empty `forked` list, the verify loop
continues with the same primary rather than returning an error. -/
theorem C7_fork_processing (sup : Supervisor) :
    (∀ forks forked sup', sup.process_forks forks = .ok (forked, sup') →
      (∀ q e, Fork.timeout q e ∈ forks → q ∉ sup'.peers.witnesses) ∧
      (∀ b e, Fork.faulty b e ∈ forks → b.provider ∉ sup'.peers.witnesses) ∧
      (∀ p ∈ forked, ∃ (pb wb : LightBlock), Fork.forked pb wb ∈ forks ∧
        wb.provider = p)) ∧
    (∀ height pid primary lb ts forks sup2,
      sup.peers.primaryWithId = some (pid, primary) →
      (primary.runVerification height).1 = .ok lb →
      Instance.latest_trusted
        { primary with state := (primary.runVerification height).2 } = some ts →
      Supervisor.detect_forks
        { sup with peers := (sup.peers.setInstance pid
            { primary with state := (primary.runVerification height).2 }) } lb ts =
        .ok (ForkDetection.detected forks) →
      Supervisor.process_forks
        { sup with peers := (sup.peers.setInstance pid
            { primary with state := (primary.runVerification height).2 }) } forks =
        .ok ([], sup2) →
      sup.verifyStep height = .cont sup2 ∧
      sup2.peers.primary = sup.peers.primary ∧
      ∀ fuel, Supervisor.verifyLoop (fuel + 1) sup height =
        Supervisor.verifyLoop fuel sup2 height) := by
  constructor
  · intro forks forked sup' hpf
    have hm := process_forks_marks sup forks forked sup' hpf
    refine ⟨hm.1, hm.2, ?_⟩
    intro p hp
    obtain ⟨pb, wb, hash, hmem, hprov, -⟩ :=
      process_forks_forked_src sup forks forked sup' hpf p hp
    exact ⟨pb, wb, hmem, hprov⟩
  · intro height pid primary lb ts forks sup2 hp hv ht hd hpf
    have hstep : sup.verifyStep height = .cont sup2 := by
      simp only [Supervisor.verifyStep, hp]
      rw [hv]
      simp only []
      rw [ht]
      simp only []
      rw [hd]
      simp only []
      rw [hpf]
      simp only [List.isEmpty_nil, if_true]
    have hprim : sup2.peers.primary = sup.peers.primary := by
      have := (process_forks_state _ forks [] sup2 hpf).2.2.1
      rw [this]
      exact PeerList.primary_setInstance sup.peers pid _
    exact ⟨hstep, hprim, fun fuel => verifyLoop_succ_cont fuel sup height sup2 hstep⟩

/-- C7 witnessed: a timeout of witness 1 marks it faulty and the loop
continues with the same primary. -/
theorem C7_fork_processing_witness :
    supTimeout.verifyStep none = .cont supTimeoutMarked ∧
    supTimeoutMarked.peers.primary = supTimeout.peers.primary ∧
    (1 : PeerId) ∉ supTimeoutMarked.peers.witnesses := by
  have h := C7_fork_processing supTimeout
  have h2 := h.2 none 0 instOkA blkB blkA [Fork.timeout 1 0] supTimeoutMarked
    rfl rfl rfl rfl rfl
  have h1 := (h.1 [Fork.timeout 1 0] [] supTimeoutMarked rfl).1 1 0 (by simp)
  exact ⟨h2.1, h2.2.1, h1⟩

/-- C9: every evidence report issued by `process_forks` targets the provider
of a `Forked` witness block; under the fork-detector contract (witness
blocks come from the supervisor's witness list), these peers are drawn from
the supervisor's own peer list, so whenever `ProdEvidenceReporter`'s peer
map covers the witness list, `report`'s `contains_key` precondition holds
and the `unwrap`ped map lookup in `rpc_client_for` succeeds. -/
theorem C9_reported_peers_in_peer_map (sup : Supervisor) (forks : List Fork)
    (forked : List PeerId) (sup' : Supervisor) (rep : ProdEvidenceReporter)
    (hpf : sup.process_forks forks = .ok (forked, sup'))
    (hcontract : ∀ pb wb, Fork.forked pb wb ∈ forks →
      wb.provider ∈ sup.peers.witnesses)
    (hcover : ∀ p, p ∈ sup.peers.witnesses → rep.contains_key p = true) :
    (∀ pb wb, Fork.forked pb wb ∈ forks →
      wb.provider ∈ sup.peers.witnesses ∧ rep.contains_key wb.provider = true ∧
      ∃ addr, rep.rpc_client_for wb.provider = some addr) ∧
    (∀ p ∈ forked, p ∈ sup.peers.witnesses ∧ rep.contains_key p = true ∧
      ∃ addr, rep.rpc_client_for p = some addr) := by
  have hlookup : ∀ p, rep.contains_key p = true →
      ∃ addr, rep.rpc_client_for p = some addr := by
    intro p hc
    unfold ProdEvidenceReporter.contains_key at hc
    unfold ProdEvidenceReporter.rpc_client_for
    cases hf : rep.peer_map.find? (fun e => e.1 == p) with
    | none => rw [hf] at hc; simp at hc
    | some a => exact ⟨a.2, rfl⟩
  constructor
  · intro pb wb hm
    have hw := hcontract pb wb hm
    exact ⟨hw, hcover _ hw, hlookup _ (hcover _ hw)⟩
  · intro p hp
    obtain ⟨pb, wb, hash, hmem, hprov, -⟩ :=
      process_forks_forked_src sup forks forked sup' hpf p hp
    have hw : p ∈ sup.peers.witnesses := hprov ▸ hcontract pb wb hmem
    exact ⟨hw, hcover p hw, hlookup p (hcover p hw)⟩

/-- C9 witnessed: the concrete fork of witness 1 against a peer map that
covers the witness list. -/
theorem C9_reported_peers_witness :
    (1 : PeerId) ∈ supFork.peers.witnesses ∧ repMap1.contains_key 1 = true ∧
    ∃ addr, repMap1.rpc_client_for 1 = some addr := by
  have h := C9_reported_peers_in_peer_map supFork [Fork.forked blkB blkW] [1]
    { supFork with peers := supFork.peers } repMap1 rfl
    (by intro pb wb hm; simp at hm; rw [hm.2]; simp [supFork, blkW])
    (by intro p hp; simp [supFork] at hp; subst hp; rfl)
  exact h.2 1 (by simp)

/-- C2: after the supervisor has terminated and dropped the inbound
receiver, every handle operation (`latest_trusted`, `verify_to_highest`,
`verify_to_target`, `terminate`) panics on the `unwrap`ped channel send —
it does not return a `ChannelClosed` error value. -/
theorem C2_post_terminate_panics :
    @SupervisorHandle.call (Except ErrorKind LightBlock)
      ChannelState.disconnected none = PanicOr.panicked ∧
    @SupervisorHandle.call (Except ErrorKind (Option LightBlock))
      ChannelState.disconnected none = PanicOr.panicked ∧
    @SupervisorHandle.call Unit ChannelState.disconnected none = PanicOr.panicked :=
  ⟨rfl, rfl, rfl⟩

/-- C3: when a request's reply channel is already closed at send time, the
supervisor event loop panics on the `unwrap`ped send instead of continuing:
a queued follow-up request is never processed. (The supervisor `supHappy`
has a primary, so the request body itself completes and the panic is the
reply send, not the entry contract.) -/
theorem C3_closed_reply_panics :
    Supervisor.run 1 2 supHappy
      [HandleInput.latestTrusted ChannelState.disconnected,
        HandleInput.latestTrusted ChannelState.connected] 1 = RunOutcome.panicked ∧
    Supervisor.run 1 2 supHappy
      [HandleInput.verifyToHighest ChannelState.disconnected] 0 = RunOutcome.panicked :=
  ⟨rfl, rfl⟩

/-- The event loop returns normally only by dequeuing a `Terminate` event. -/
theorem run_terminated_mem : ∀ (vf fuel : Nat) (sup : Supervisor)
    (queue : List HandleInput) (ext : Nat) (sup' : Supervisor),
    Supervisor.run vf fuel sup queue ext = RunOutcome.terminated sup' →
    ∃ reply, HandleInput.terminate reply ∈ queue
  | vf, 0, sup, queue, ext, sup', h => by simp [Supervisor.run] at h
  | vf, fuel + 1, sup, [], ext, sup', h => by
      simp [Supervisor.run, channelRecv, Nat.succ_ne_zero] at h
  | vf, fuel + 1, sup, e :: rest, ext, sup', h => by
      cases e with
      | terminate reply => exact ⟨reply, List.mem_cons_self _ _⟩
      | latestTrusted reply =>
          simp only [Supervisor.run, channelRecv] at h
          cases hl : sup.latest_trusted with
          | panicked => rw [hl] at h; simp at h
          | value o =>
              rw [hl] at h
              simp only [] at h
              cases hs : channelSend reply with
              | error u => rw [hs] at h; simp at h
              | ok u =>
                  cases u
                  rw [hs] at h
                  simp only [] at h
                  obtain ⟨r, hr⟩ := run_terminated_mem vf fuel sup rest ext sup' h
                  exact ⟨r, List.mem_cons_of_mem _ hr⟩
      | verifyToHighest reply =>
          simp only [Supervisor.run, channelRecv] at h
          cases hv : sup.verify_to_highest vf with
          | panicked => rw [hv] at h; simp at h
          | value vo =>
              rw [hv] at h
              cases vo with
              | outOfFuel s => simp at h
              | out r s =>
                  simp only [] at h
                  cases hs : channelSend reply with
                  | error u => rw [hs] at h; simp at h
                  | ok u =>
                      cases u
                      rw [hs] at h
                      simp only [] at h
                      obtain ⟨r2, hr⟩ := run_terminated_mem vf fuel s rest ext sup' h
                      exact ⟨r2, List.mem_cons_of_mem _ hr⟩
      | verifyToTarget height reply =>
          simp only [Supervisor.run, channelRecv] at h
          cases hv : sup.verify_to_target vf height with
          | panicked => rw [hv] at h; simp at h
          | value vo =>
              rw [hv] at h
              cases vo with
              | outOfFuel s => simp at h
              | out r s =>
                  simp only [] at h
                  cases hs : channelSend reply with
                  | error u => rw [hs] at h; simp at h
                  | ok u =>
                      cases u
                      rw [hs] at h
                      simp only [] at h
                      obtain ⟨r2, hr⟩ := run_terminated_mem vf fuel s rest ext sup' h
                      exact ⟨r2, List.mem_cons_of_mem _ hr⟩

/-- C10: the event loop exits only after dequeuing a `Terminate` event;
because `Supervisor::new` keeps a clone of the inbound sender inside the
supervisor, `recv` can never observe a disconnected channel while the loop
runs, and when every handle is dropped without sending `Terminate` (empty
queue, zero external senders) the loop blocks forever on `recv` instead of
exiting or panicking. -/
theorem C10_run_exits_only_on_terminate :
    (∀ vf fuel sup queue ext sup',
      Supervisor.run vf fuel sup queue ext = RunOutcome.terminated sup' →
      ∃ reply, HandleInput.terminate reply ∈ queue) ∧
    (∀ queue ext, channelRecv queue (ext + 1) ≠ RecvOutcome.disconnected) ∧
    (∀ vf fuel sup ext, Supervisor.run vf (fuel + 1) sup [] ext =
      RunOutcome.blockedForever) := by
  refine ⟨fun vf fuel sup queue ext sup' h =>
    run_terminated_mem vf fuel sup queue ext sup' h, ?_, ?_⟩
  · intro queue ext
    cases queue with
    | nil => simp [channelRecv, Nat.succ_ne_zero]
    | cons e rest => simp [channelRecv]
  · intro vf fuel sup ext
    simp [Supervisor.run, channelRecv, Nat.succ_ne_zero]

/-- C10 witnessed: a queue holding one `Terminate` makes `run` exit (hence a
`Terminate` was dequeued), and the empty queue with no external senders
blocks forever. -/
theorem C10_run_exits_witness :
    (∃ reply, HandleInput.terminate reply ∈
      [HandleInput.terminate ChannelState.connected]) ∧
    channelRecv [] 1 ≠ RecvOutcome.disconnected ∧
    Supervisor.run 1 1 supEmpty [] 0 = RunOutcome.blockedForever := by
  obtain ⟨h1, h2, h3⟩ := C10_run_exits_only_on_terminate
  exact ⟨h1 1 1 supEmpty [HandleInput.terminate ChannelState.connected] 0 supEmpty rfl,
    h2 [] 0, h3 1 0 supEmpty 0⟩

end TmLight
